import Mathlib

/-!
Verification development for the web (wgpu) platform backend of a GUI toolkit:
the GPU sprite/texture atlas manager (`wgpu_atlas.rs`) and the batched 2D
frame renderer (`wgpu_renderer.rs`).

Scalar conventions: `DevicePixels` (an `i32` newtype) and `ScaledPixels`
coordinates are modelled as `Int`; none of the properties below exercise
32-bit overflow (all concrete sizes are far below `2^31`) and the geometric
reasoning uses only ordering, addition and subtraction, which are exact.
The `u32` live-reference counter is modelled as `Nat` with addition reduced
mod `2^32` and `saturating_sub` as truncated `Nat` subtraction.
-/

namespace ZedWeb

/-- Rust `Point<DevicePixels>` from the gpui geometry layer: an x/y pair. -/
structure Point where
  x : Int
  y : Int
  deriving DecidableEq, Repr

/-- Rust `Size<DevicePixels>`: width/height pair. -/
structure Size where
  width : Int
  height : Int
  deriving DecidableEq, Repr

/-- Rust `Bounds<DevicePixels>`: an axis-aligned rectangle given by origin and size. -/
structure Bounds where
  origin : Point
  size : Size
  deriving DecidableEq, Repr

/-- The x coordinate one past the right edge of a rectangle. -/
def Bounds.right (b : Bounds) : Int := b.origin.x + b.size.width

/-- The y coordinate one past the bottom edge of a rectangle. -/
def Bounds.bottom (b : Bounds) : Int := b.origin.y + b.size.height

/-- Two rectangles are disjoint when they are separated along some axis;
equivalently their interiors share no pixel. -/
def Bounds.disjoint (a b : Bounds) : Prop :=
  a.right ≤ b.origin.x ∨ b.right ≤ a.origin.x ∨ a.bottom ≤ b.origin.y ∨ b.bottom ≤ a.origin.y

instance (a b : Bounds) : Decidable (a.disjoint b) := by
  unfold Bounds.disjoint
  exact inferInstance

/-- Rectangle containment: `a` lies entirely within `f`. -/
def Bounds.containedIn (a f : Bounds) : Prop :=
  f.origin.x ≤ a.origin.x ∧ a.right ≤ f.right ∧ f.origin.y ≤ a.origin.y ∧ a.bottom ≤ f.bottom

theorem Bounds.disjoint_symm {a b : Bounds} (h : a.disjoint b) : b.disjoint a := by
  simp only [Bounds.disjoint, Bounds.right, Bounds.bottom] at h ⊢
  omega

theorem Bounds.disjoint_symmetric : Symmetric Bounds.disjoint :=
  fun _ _ h => Bounds.disjoint_symm h

theorem Bounds.disjoint_of_contained {a f g : Bounds}
    (hc : a.containedIn f) (hd : f.disjoint g) : a.disjoint g := by
  simp only [Bounds.containedIn, Bounds.disjoint, Bounds.right, Bounds.bottom] at hc hd ⊢
  omega

theorem Bounds.containedIn_self (a : Bounds) : a.containedIn a := by
  simp only [Bounds.containedIn, Bounds.right, Bounds.bottom]
  omega

/-- Modelled from the spec: the per-texture rectangle packer
(`etagere::BucketedAtlasAllocator`) is an external dependency whose code is not
under `src/`.  Per §4.1 it is a bucketed guillotine packer: `allocate(size)`
finds a free rectangle the request fits into, carves the request out of its
top-left corner, splits the remainder along straight cuts into two new free
rectangles, and never moves previously allocated regions.  This function walks
the free-rectangle list and performs that split on the first fit. -/
def allocFrom : List Bounds → Size → Option (Bounds × List Bounds)
  | [], _ => none
  | f :: rest, s =>
    if s.width ≤ f.size.width ∧ s.height ≤ f.size.height then
      some (⟨f.origin, s⟩,
        ⟨⟨f.origin.x + s.width, f.origin.y⟩, ⟨f.size.width - s.width, s.height⟩⟩ ::
        ⟨⟨f.origin.x, f.origin.y + s.height⟩, ⟨f.size.width, f.size.height - s.height⟩⟩ :: rest)
    else
      (allocFrom rest s).map (fun p => (p.1, f :: p.2))

/-- Modelled from the spec: the state of one per-texture packer — its current
free rectangles plus a counter supplying fresh allocation ids. -/
structure AllocatorState where
  freeRects : List Bounds
  nextId : Nat
  deriving DecidableEq, Repr

/-- A fresh packer for a texture of the given extent: one free rectangle
covering the whole texture. -/
def AllocatorState.new (size : Size) : AllocatorState :=
  ⟨[⟨⟨0, 0⟩, size⟩], 0⟩

/-- Rust `allocate(size)` on the packer: returns the allocation id, the allocated
rectangle and the updated packer state, or `none` when nothing fits. -/
def AllocatorState.allocate (st : AllocatorState) (s : Size) :
    Option (Nat × Bounds × AllocatorState) :=
  match allocFrom st.freeRects s with
  | none => none
  | some (r, free') => some (st.nextId, r, ⟨free', st.nextId + 1⟩)

theorem allocFrom_contained :
    ∀ (free : List Bounds) (s : Size) (a : Bounds) (free' : List Bounds),
      allocFrom free s = some (a, free') → 0 ≤ s.width → 0 ≤ s.height →
      ∀ r ∈ a :: free', ∃ f ∈ free, r.containedIn f := by
  intro free
  induction free with
  | nil =>
    intro s a free' h
    simp [allocFrom] at h
  | cons f rest ih =>
    intro s a free' h hw hh r hr
    rw [allocFrom] at h
    by_cases hc : s.width ≤ f.size.width ∧ s.height ≤ f.size.height
    · rw [if_pos hc] at h
      obtain ⟨hc1, hc2⟩ := hc
      simp only [Option.some.injEq, Prod.mk.injEq] at h
      obtain ⟨ha, hf⟩ := h
      subst ha
      subst hf
      simp only [List.mem_cons] at hr
      rcases hr with rfl | rfl | rfl | hr
      · exact ⟨f, List.mem_cons_self _ _, by
          simp only [Bounds.containedIn, Bounds.right, Bounds.bottom]
          omega⟩
      · exact ⟨f, List.mem_cons_self _ _, by
          simp only [Bounds.containedIn, Bounds.right, Bounds.bottom]
          omega⟩
      · exact ⟨f, List.mem_cons_self _ _, by
          simp only [Bounds.containedIn, Bounds.right, Bounds.bottom]
          omega⟩
      · exact ⟨r, List.mem_cons_of_mem _ hr, Bounds.containedIn_self r⟩
    · rw [if_neg hc] at h
      rw [Option.map_eq_some'] at h
      obtain ⟨⟨a₀, rest'⟩, hrec, heq⟩ := h
      simp only [Prod.mk.injEq] at heq
      obtain ⟨ha, hf⟩ := heq
      subst ha
      subst hf
      simp only [List.mem_cons] at hr
      rcases hr with rfl | rfl | hr
      · obtain ⟨g, hg, hcg⟩ := ih s r rest' hrec hw hh r (List.mem_cons_self _ _)
        exact ⟨g, List.mem_cons_of_mem _ hg, hcg⟩
      · exact ⟨r, List.mem_cons_self _ _, Bounds.containedIn_self r⟩
      · obtain ⟨g, hg, hcg⟩ := ih s a₀ rest' hrec hw hh r (List.mem_cons_of_mem _ hr)
        exact ⟨g, List.mem_cons_of_mem _ hg, hcg⟩

theorem allocFrom_pairwise_disjoint :
    ∀ (free : List Bounds) (s : Size) (a : Bounds) (free' allocd : List Bounds),
      allocFrom free s = some (a, free') → 0 ≤ s.width → 0 ≤ s.height →
      (free ++ allocd).Pairwise Bounds.disjoint →
      (a :: (free' ++ allocd)).Pairwise Bounds.disjoint := by
  intro free
  induction free with
  | nil =>
    intro s a free' allocd h
    simp [allocFrom] at h
  | cons f rest ih =>
    intro s a free' allocd h hw hh hp
    rw [List.cons_append, List.pairwise_cons] at hp
    obtain ⟨hf, htail⟩ := hp
    rw [allocFrom] at h
    by_cases hc : s.width ≤ f.size.width ∧ f.size.height ≥ s.height
    · rw [if_pos (by exact ⟨hc.1, hc.2⟩)] at h
      obtain ⟨hc1, hc2⟩ := hc
      simp only [Option.some.injEq, Prod.mk.injEq] at h
      obtain ⟨ha, hfe⟩ := h
      subst ha
      subst hfe
      have hcontA : Bounds.containedIn ⟨f.origin, s⟩ f := by
        simp only [Bounds.containedIn, Bounds.right, Bounds.bottom]
        omega
      have hcontR1 : Bounds.containedIn
          ⟨⟨f.origin.x + s.width, f.origin.y⟩, ⟨f.size.width - s.width, s.height⟩⟩ f := by
        simp only [Bounds.containedIn, Bounds.right, Bounds.bottom]
        omega
      have hcontR2 : Bounds.containedIn
          ⟨⟨f.origin.x, f.origin.y + s.height⟩, ⟨f.size.width, f.size.height - s.height⟩⟩ f := by
        simp only [Bounds.containedIn, Bounds.right, Bounds.bottom]
        omega
      rw [List.cons_append, List.cons_append]
      rw [List.pairwise_cons]
      refine ⟨?_, ?_⟩
      · intro x hx
        simp only [List.mem_cons] at hx
        rcases hx with rfl | rfl | hx
        · simp only [Bounds.disjoint, Bounds.right, Bounds.bottom]
          omega
        · simp only [Bounds.disjoint, Bounds.right, Bounds.bottom]
          omega
        · exact Bounds.disjoint_of_contained hcontA (hf x hx)
      · rw [List.pairwise_cons]
        refine ⟨?_, ?_⟩
        · intro x hx
          simp only [List.mem_cons] at hx
          rcases hx with rfl | hx
          · simp only [Bounds.disjoint, Bounds.right, Bounds.bottom]
            omega
          · exact Bounds.disjoint_of_contained hcontR1 (hf x hx)
        · rw [List.pairwise_cons]
          exact ⟨fun x hx => Bounds.disjoint_of_contained hcontR2 (hf x hx), htail⟩
    · rw [if_neg (by intro hand; exact hc ⟨hand.1, hand.2⟩)] at h
      rw [Option.map_eq_some'] at h
      obtain ⟨⟨a₀, rest'⟩, hrec, heq⟩ := h
      simp only [Prod.mk.injEq] at heq
      obtain ⟨ha, hfe⟩ := heq
      subst ha
      subst hfe
      have hih := ih s a₀ rest' allocd hrec hw hh htail
      rw [List.pairwise_cons] at hih
      obtain ⟨hadisj, htail'⟩ := hih
      have hcont := allocFrom_contained rest s a₀ rest' hrec hw hh
      rw [List.cons_append, List.pairwise_cons]
      refine ⟨?_, ?_⟩
      · intro x hx
        simp only [List.mem_cons] at hx
        rcases hx with rfl | hx
        · obtain ⟨g, hg, hcg⟩ := hcont a₀ (List.mem_cons_self _ _)
          exact Bounds.disjoint_of_contained hcg
            (Bounds.disjoint_symm (hf g (List.mem_append_left _ hg)))
        · exact hadisj x hx
      · rw [List.pairwise_cons]
        refine ⟨?_, htail'⟩
        intro x hx
        rcases List.mem_append.mp hx with hx' | hx'
        · obtain ⟨g, hg, hcg⟩ := hcont x (List.mem_cons_of_mem _ hx')
          exact Bounds.disjoint_symm
            (Bounds.disjoint_of_contained hcg
              (Bounds.disjoint_symm (hf g (List.mem_append_left _ hg))))
        · exact hf x (List.mem_append_right _ hx')

/-- Rust `AtlasTextureKind` (gpui): which of the two format-partitioned texture
lists a texture belongs to. -/
inductive AtlasTextureKind
  | monochrome
  | polychrome
  deriving DecidableEq, Repr

/-- Rust `AtlasTextureId`: `{index: u32, kind}` identifying one texture slot. -/
structure AtlasTextureId where
  index : Nat
  kind : AtlasTextureKind
  deriving DecidableEq, Repr

/-- The two `wgpu::TextureFormat`s the atlas uses (`R8Unorm` for monochrome,
`Bgra8Unorm` for polychrome). -/
inductive TextureFormat
  | r8Unorm
  | bgra8Unorm
  deriving DecidableEq, Repr

/-- Rust `AtlasTile`: where within which texture a key's pixels live. -/
structure AtlasTile where
  textureId : AtlasTextureId
  tileId : Nat
  padding : Nat
  bounds : Bounds
  deriving DecidableEq, Repr

/-- Constant `2^32`, the wrap modulus of the `u32` live-reference counter. -/
def u32Mod : Nat := 4294967296

/-- Rust `WgpuAtlasTexture` from `wgpu_atlas.rs`: one GPU texture, its packer, its
format, and the count of live atlas keys referencing it.  `texSize` records
the extent the backing `wgpu::Texture` was created with. -/
structure WgpuAtlasTexture where
  id : AtlasTextureId
  allocator : AllocatorState
  texSize : Size
  format : TextureFormat
  liveAtlasKeys : Nat
  deriving DecidableEq, Repr

/-- Rust `WgpuAtlasTexture::allocate` (wgpu_atlas.rs:268-281): ask the packer for a
region; on success build the tile whose bounds take the allocation's origin
and the *requested* size, and increment the live-key count. -/
def WgpuAtlasTexture.allocate (t : WgpuAtlasTexture) (size : Size) :
    Option (AtlasTile × WgpuAtlasTexture) :=
  match t.allocator.allocate size with
  | none => none
  | some (allocId, rect, alloc') =>
    some ({ textureId := t.id, tileId := allocId, padding := 0,
            bounds := { origin := rect.origin, size := size } },
          { t with allocator := alloc', liveAtlasKeys := (t.liveAtlasKeys + 1) % u32Mod })

/-- Rust `WgpuAtlasTexture::bytes_per_pixel` (wgpu_atlas.rs:283-289). -/
def WgpuAtlasTexture.bytesPerPixel (t : WgpuAtlasTexture) : Nat :=
  match t.format with
  | .r8Unorm => 1
  | .bgra8Unorm => 4

/-- Rust `WgpuAtlasTexture::decrement_ref_count`: `u32::saturating_sub` by one,
which truncated `Nat` subtraction models exactly. -/
def WgpuAtlasTexture.decrementRefCount (t : WgpuAtlasTexture) : WgpuAtlasTexture :=
  { t with liveAtlasKeys := t.liveAtlasKeys - 1 }

/-- Rust `WgpuAtlasTexture::is_unreferenced`. -/
def WgpuAtlasTexture.isUnreferenced (t : WgpuAtlasTexture) : Bool :=
  t.liveAtlasKeys == 0

/-- An operation on a single atlas texture, for claim C2: `alloc` is
`WgpuAtlasTexture::allocate`; `free i` frees the `i`-th tile ever returned
(what `WgpuAtlas::remove` does to the owning texture: only the reference
count drops — this code base never returns a tile's region to the packer). -/
inductive TexOp
  | alloc (size : Size)
  | free (tileIx : Nat)
  deriving DecidableEq, Repr

/-- Sizes an operation may request must be non-negative (a rasterized glyph
or image never has a negative extent). -/
def TexOp.sizeOk : TexOp → Prop
  | .alloc s => 0 ≤ s.width ∧ 0 ≤ s.height
  | .free _ => True

instance (op : TexOp) : Decidable op.sizeOk := by
  cases op with
  | alloc s => exact inferInstanceAs (Decidable (_ ∧ _))
  | free _ => exact inferInstanceAs (Decidable True)

/-- Observer state for a run of operations against one texture: the texture
itself, every tile ever returned (in order), and the indices already freed. -/
structure TexRun where
  texture : WgpuAtlasTexture
  tiles : List AtlasTile
  dead : List Nat
  deriving DecidableEq, Repr

/-- A fresh monochrome texture of the given extent with an empty packer. -/
def TexRun.fresh (size : Size) : TexRun :=
  { texture := { id := ⟨0, .monochrome⟩, allocator := AllocatorState.new size,
                 texSize := size, format := .r8Unorm, liveAtlasKeys := 0 },
    tiles := [], dead := [] }

/-- One step of the C2 harness. -/
def texStep (r : TexRun) : TexOp → TexRun
  | .alloc s =>
    match r.texture.allocate s with
    | some (tile, t') => { r with texture := t', tiles := r.tiles ++ [tile] }
    | none => r
  | .free i =>
    { r with texture := r.texture.decrementRefCount, dead := i :: r.dead }

/-- Run a sequence of operations against one fresh texture. -/
def texRun (size : Size) (ops : List TexOp) : TexRun :=
  ops.foldl texStep (TexRun.fresh size)

/-- The tiles returned by `allocate` that have not been freed yet. -/
def TexRun.liveTiles (r : TexRun) : List AtlasTile :=
  (r.tiles.enum.filter (fun p => !(r.dead.contains p.1))).map Prod.snd

/-- The pairwise-disjointness invariant tying the packer's free rectangles to
every tile the texture ever handed out. -/
def TexInv (r : TexRun) : Prop :=
  (r.texture.allocator.freeRects ++ r.tiles.map AtlasTile.bounds).Pairwise Bounds.disjoint

theorem allocFrom_size :
    ∀ (free : List Bounds) (s : Size) (a : Bounds) (free' : List Bounds),
      allocFrom free s = some (a, free') → a.size = s := by
  intro free
  induction free with
  | nil =>
    intro s a free' h
    simp [allocFrom] at h
  | cons f rest ih =>
    intro s a free' h
    rw [allocFrom] at h
    by_cases hc : s.width ≤ f.size.width ∧ s.height ≤ f.size.height
    · rw [if_pos hc] at h
      simp only [Option.some.injEq, Prod.mk.injEq] at h
      rw [← h.1]
    · rw [if_neg hc, Option.map_eq_some'] at h
      obtain ⟨⟨a₀, rest'⟩, hrec, heq⟩ := h
      simp only [Prod.mk.injEq] at heq
      rw [← heq.1]
      exact ih s a₀ rest' hrec

theorem texStep_inv {r : TexRun} {op : TexOp} (hop : op.sizeOk) (hinv : TexInv r) :
    TexInv (texStep r op) := by
  cases op with
  | free i => exact hinv
  | alloc s =>
    obtain ⟨hw, hh⟩ := hop
    cases halloc : r.texture.allocate s with
    | none => simpa only [texStep, halloc] using hinv
    | some res =>
      obtain ⟨tile, t'⟩ := res
      suffices h : TexInv { r with texture := t', tiles := r.tiles ++ [tile] } by
        simpa only [texStep, halloc] using h
      unfold WgpuAtlasTexture.allocate AllocatorState.allocate at halloc
      cases hfrom : allocFrom r.texture.allocator.freeRects s with
      | none => rw [hfrom] at halloc; simp at halloc
      | some p =>
        obtain ⟨rect, free'⟩ := p
        rw [hfrom] at halloc
        simp only [Option.some.injEq, Prod.mk.injEq] at halloc
        obtain ⟨htile, ht'⟩ := halloc
        subst htile
        subst ht'
        have hpw := allocFrom_pairwise_disjoint r.texture.allocator.freeRects s rect free'
          (r.tiles.map AtlasTile.bounds) hfrom hw hh hinv
        have hsz := allocFrom_size r.texture.allocator.freeRects s rect free' hfrom
        obtain ⟨ro, rs⟩ := rect
        simp only at hsz
        subst hsz
        unfold TexInv
        simp only [List.map_append, List.map_cons, List.map_nil]
        have hperm :
            List.Perm (free' ++ (r.tiles.map AtlasTile.bounds ++ [(⟨ro, rs⟩ : Bounds)]))
              ((⟨ro, rs⟩ : Bounds) :: (free' ++ r.tiles.map AtlasTile.bounds)) := by
          rw [← List.append_assoc]
          exact List.perm_append_singleton _ _
        rw [List.Perm.pairwise_iff Bounds.disjoint_symm hperm]
        exact hpw

theorem texFold_inv :
    ∀ (ops : List TexOp) (r : TexRun), (∀ op ∈ ops, op.sizeOk) → TexInv r →
      TexInv (ops.foldl texStep r) := by
  intro ops
  induction ops with
  | nil => intro r _ h; exact h
  | cons op rest ih =>
    intro r hops h
    rw [List.foldl_cons]
    exact ih _ (fun o ho => hops o (List.mem_cons_of_mem _ ho))
      (texStep_inv (hops op (List.mem_cons_self _ _)) h)

/-- The invariant holds after any run whose allocation sizes are non-negative. -/
theorem texRun_inv (size : Size) (ops : List TexOp)
    (hops : ∀ op ∈ ops, op.sizeOk) : TexInv (texRun size ops) := by
  refine texFold_inv ops (TexRun.fresh size) hops ?_
  unfold TexInv TexRun.fresh
  simp [AllocatorState.new]

theorem liveTiles_sublist (r : TexRun) : r.liveTiles.Sublist r.tiles := by
  unfold TexRun.liveTiles
  have h1 : (r.tiles.enum.filter (fun p => !(r.dead.contains p.1))).Sublist r.tiles.enum :=
    List.filter_sublist _
  have h2 := h1.map Prod.snd
  rw [List.enum_map_snd] at h2
  exact h2

/-- C2: for every sequence of `allocate`/`free` calls on one atlas texture,
the bounds of the still-live tiles returned by `allocate` are pairwise
non-overlapping. -/
theorem c2_live_tiles_pairwise_disjoint (size : Size) (ops : List TexOp)
    (hops : ∀ op ∈ ops, op.sizeOk) :
    ((texRun size ops).liveTiles.map AtlasTile.bounds).Pairwise Bounds.disjoint := by
  have hinv := texRun_inv size ops hops
  unfold TexInv at hinv
  have htiles : ((texRun size ops).tiles.map AtlasTile.bounds).Pairwise Bounds.disjoint :=
    (List.pairwise_append.mp hinv).2.1
  exact List.Pairwise.sublist ((liveTiles_sublist _).map AtlasTile.bounds) htiles

/-- The scenario from the claim: allocate 64×64 tiles A and B in an empty
1024×1024 monochrome texture, free A, then allocate 64×64 tile C. -/
def c2Ops : List TexOp :=
  [TexOp.alloc ⟨64, 64⟩, TexOp.alloc ⟨64, 64⟩, TexOp.free 0, TexOp.alloc ⟨64, 64⟩]

/-- Witness for C2 at the claim's concrete scenario: after the run the live
tiles are B and C, and their bounds do not overlap. -/
theorem c2_witness :
    ((texRun ⟨1024, 1024⟩ c2Ops).liveTiles.map AtlasTile.bounds).Pairwise Bounds.disjoint :=
  c2_live_tiles_pairwise_disjoint ⟨1024, 1024⟩ c2Ops (by decide)

/-- Rust `AtlasKey`: modelled from the spec — an opaque content fingerprint whose
`texture_kind()` tells which format partition the content rasterizes into
(the concrete enum lives in gpui core, outside this backend). -/
structure AtlasKey where
  fingerprint : Nat
  textureKind : AtlasTextureKind
  deriving DecidableEq, Repr

/-- Rust `AtlasTextureList<WgpuAtlasTexture>`: modelled from the spec's §9 design
note — a growable vector of tombstoned (`Option`) texture slots plus a free
list of reusable slot indices.  The Rust `Vec` pushes and pops its free list
at the end; the Lean list keeps the most recently pushed index at its head. -/
structure AtlasTextureList where
  textures : List (Option WgpuAtlasTexture)
  freeList : List Nat
  deriving DecidableEq, Repr

def AtlasTextureList.empty : AtlasTextureList := ⟨[], []⟩

/-- Rust `PendingUpload`: destination texture, destination bounds, and the pixel
bytes (abstracted to their length; no claim inspects the byte values). -/
structure PendingUpload where
  id : AtlasTextureId
  bounds : Bounds
  dataLen : Nat
  deriving DecidableEq, Repr

/-- Rust `WgpuAtlasState`: the `WgpuAtlasStorage` (its two format-partitioned
texture lists inlined), the key→tile map (an association list standing in for
`FxHashMap`), and the pending-upload queue.  The GPU device and queue handles
carry no modelled state. -/
structure WgpuAtlasState where
  monochromeTextures : AtlasTextureList
  polychromeTextures : AtlasTextureList
  tilesByKey : List (AtlasKey × AtlasTile)
  uploads : List PendingUpload
  deriving DecidableEq, Repr

/-- The empty atlas (`WgpuAtlas::new`). -/
def WgpuAtlasState.empty : WgpuAtlasState :=
  ⟨AtlasTextureList.empty, AtlasTextureList.empty, [], []⟩

/-- Rust `ops::Index<AtlasTextureKind> for WgpuAtlasStorage`. -/
def WgpuAtlasState.listOf (st : WgpuAtlasState) (kind : AtlasTextureKind) : AtlasTextureList :=
  match kind with
  | .monochrome => st.monochromeTextures
  | .polychrome => st.polychromeTextures

/-- Rust `ops::IndexMut<AtlasTextureKind>`: replace one kind's texture list. -/
def WgpuAtlasState.setListOf (st : WgpuAtlasState) (kind : AtlasTextureKind)
    (tl : AtlasTextureList) : WgpuAtlasState :=
  match kind with
  | .monochrome => { st with monochromeTextures := tl }
  | .polychrome => { st with polychromeTextures := tl }

/-- Rust `ops::Index<AtlasTextureId> for WgpuAtlasStorage` (wgpu_atlas.rs:248-257):
indexing an absent slot or an out-of-range index panics via
`expect("texture should exist")`; `none` is the panic marker. -/
def WgpuAtlasState.storageGet (st : WgpuAtlasState) (id : AtlasTextureId) :
    Option WgpuAtlasTexture :=
  match (st.listOf id.kind).textures.get? id.index with
  | some (some t) => some t
  | _ => none

/-- First-match lookup in the key→tile association list (`FxHashMap::get`). -/
def lookupKey (key : AtlasKey) : List (AtlasKey × AtlasTile) → Option AtlasTile
  | [] => none
  | (k, t) :: rest => if k = key then some t else lookupKey key rest

/-- Rust `FxHashMap::remove`'s effect on the association list. -/
def eraseKey (key : AtlasKey) (l : List (AtlasKey × AtlasTile)) :
    List (AtlasKey × AtlasTile) :=
  l.filter (fun p => decide (p.1 ≠ key))

/-- Rust `FxHashMap::insert`'s effect on the association list. -/
def insertKey (key : AtlasKey) (tile : AtlasTile) (l : List (AtlasKey × AtlasTile)) :
    List (AtlasKey × AtlasTile) :=
  (key, tile) :: eraseKey key l

/-- The atlas texture `push_texture` constructs (wgpu_atlas.rs:130-172): the
extent is the requested size clamped up to the 1024×1024 default, the format
is chosen by kind, and the id takes the assigned slot index. -/
def newTexFor (minSize : Size) (kind : AtlasTextureKind) (ix : Nat) : WgpuAtlasTexture :=
  { id := ⟨ix, kind⟩,
    allocator := AllocatorState.new ⟨max minSize.width 1024, max minSize.height 1024⟩,
    texSize := ⟨max minSize.width 1024, max minSize.height 1024⟩,
    format :=
      match kind with
      | .monochrome => .r8Unorm
      | .polychrome => .bgra8Unorm,
    liveAtlasKeys := 0 }

/-- Rust `WgpuAtlasState::push_texture` (wgpu_atlas.rs:125-181): the slot index is
popped from the free list when one is available, else appended.  Assigning
`textures[ix]` at a reused index that is somehow out of range would panic in
Rust; `none` is that panic marker. -/
def WgpuAtlasState.pushTexture (st : WgpuAtlasState) (minSize : Size)
    (kind : AtlasTextureKind) : Option (WgpuAtlasState × Nat) :=
  let tl := st.listOf kind
  match tl.freeList with
  | ix :: restFree =>
    if ix < tl.textures.length then
      some (st.setListOf kind ⟨tl.textures.set ix (some (newTexFor minSize kind ix)), restFree⟩,
        ix)
    else none
  | [] =>
    let ix := tl.textures.length
    some (st.setListOf kind ⟨tl.textures ++ [some (newTexFor minSize kind ix)], []⟩, ix)

/-- The `textures.iter_mut().rev().find_map(|texture| texture.allocate(size))`
search of `WgpuAtlasState::allocate`: try the slots from the last to the
first, skipping tombstones; on the first success return the tile and the
texture list with that one texture updated in place. -/
def findAllocRev : List (Option WgpuAtlasTexture) → Size →
    Option (AtlasTile × List (Option WgpuAtlasTexture))
  | [], _ => none
  | slot :: rest, s =>
    match findAllocRev rest s with
    | some (tile, rest') => some (tile, slot :: rest')
    | none =>
      match slot with
      | some t =>
        match t.allocate s with
        | some (tile, t') => some (tile, some t' :: rest)
        | none => none
      | none => none

/-- Rust `WgpuAtlasState::allocate` (wgpu_atlas.rs:108-123): try the existing
textures of the kind in reverse order; on total failure push a new texture
and allocate from it.  The `.expect("newly created texture should have
space")` panic is the trailing `none` (proved unreachable below). -/
def WgpuAtlasState.allocate (st : WgpuAtlasState) (size : Size) (kind : AtlasTextureKind) :
    Option (AtlasTile × WgpuAtlasState) :=
  match findAllocRev (st.listOf kind).textures size with
  | some (tile, textures') =>
    some (tile, st.setListOf kind ⟨textures', (st.listOf kind).freeList⟩)
  | none =>
    match st.pushTexture size kind with
    | none => none
    | some (st', ix) =>
      match (st'.listOf kind).textures.get? ix with
      | some (some tex) =>
        match tex.allocate size with
        | some (tile, tex') =>
          some (tile, st'.setListOf kind
            ⟨(st'.listOf kind).textures.set ix (some tex'), (st'.listOf kind).freeList⟩)
        | none => none
      | _ => none

/-- Rust `WgpuAtlasState::upload_texture` (wgpu_atlas.rs:183-189). -/
def WgpuAtlasState.uploadTexture (st : WgpuAtlasState) (id : AtlasTextureId)
    (bounds : Bounds) (dataLen : Nat) : WgpuAtlasState :=
  { st with uploads := st.uploads ++ [⟨id, bounds, dataLen⟩] }

/-- Rust `WgpuAtlas::get_or_insert_with` (wgpu_atlas.rs:66-83).  The caller's
`build` callback is invoked at most once, only on a cache miss; it is
therefore modelled by the single value it would produce, and the returned
`Bool` records whether it was invoked.  The outer `Option` is the panic
marker inherited from `allocate`. -/
def WgpuAtlas.getOrInsertWith {ε : Type} (st : WgpuAtlasState) (key : AtlasKey)
    (build : Except ε (Option (Size × Nat))) :
    Option (Except ε (Option AtlasTile) × WgpuAtlasState × Bool) :=
  match lookupKey key st.tilesByKey with
  | some tile => some (.ok (some tile), st, false)
  | none =>
    match build with
    | .error e => some (.error e, st, true)
    | .ok none => some (.ok none, st, true)
    | .ok (some (size, dataLen)) =>
      match st.allocate size key.textureKind with
      | none => none
      | some (tile, st') =>
        let st'' := st'.uploadTexture tile.textureId tile.bounds dataLen
        some (.ok (some tile), { st'' with tilesByKey := insertKey key tile st''.tilesByKey },
          true)

/-- Rust `WgpuAtlas::remove` (wgpu_atlas.rs:85-104): drop the key's map entry;
if the owning texture exists, decrement its live count, and when it reaches
zero push its slot index on the free list and empty the slot. -/
def WgpuAtlas.remove (st : WgpuAtlasState) (key : AtlasKey) : WgpuAtlasState :=
  match lookupKey key st.tilesByKey with
  | none => st
  | some tile =>
    let st1 := { st with tilesByKey := eraseKey key st.tilesByKey }
    let id := tile.textureId
    let tl := st1.listOf id.kind
    match tl.textures.get? id.index with
    | none => st1
    | some none => st1
    | some (some tex) =>
      let tex' := tex.decrementRefCount
      if tex'.isUnreferenced then
        st1.setListOf id.kind ⟨tl.textures.set id.index none, id.index :: tl.freeList⟩
      else
        st1.setListOf id.kind ⟨tl.textures.set id.index (some tex'), tl.freeList⟩

/-- The per-upload body of `WgpuAtlasState::flush_uploads`: each drained
upload indexes `storage[upload.id]`, which panics when the texture slot has
been emptied; `false` is the panic marker. -/
def flushUploadsLoop (st : WgpuAtlasState) : List PendingUpload → Bool
  | [] => true
  | u :: rest =>
    match st.storageGet u.id with
    | some _ => flushUploadsLoop st rest
    | none => false

/-- Rust `WgpuAtlasState::flush_uploads` (wgpu_atlas.rs:191-220): drain the queue,
writing each upload to its texture; `none` is the panic marker for an upload
whose texture slot no longer holds a texture. -/
def WgpuAtlasState.flushUploads (st : WgpuAtlasState) : Option WgpuAtlasState :=
  if flushUploadsLoop st st.uploads then some { st with uploads := [] } else none

/-- Rust `WgpuAtlas::before_frame` (wgpu_atlas.rs:45-48). -/
def WgpuAtlas.beforeFrame (st : WgpuAtlasState) : Option WgpuAtlasState :=
  st.flushUploads

/-- Well-formedness of the free lists: every recyclable slot index is in
range of its texture vector.  This holds for every reachable state (slots are
never removed from the vectors) and is what keeps the `textures[ix] = ...`
assignment in `push_texture` from panicking. -/
def AtlasTextureList.freeListWF (tl : AtlasTextureList) : Prop :=
  ∀ i ∈ tl.freeList, i < tl.textures.length

instance (tl : AtlasTextureList) : Decidable tl.freeListWF :=
  inferInstanceAs (Decidable (∀ i ∈ tl.freeList, i < tl.textures.length))

def WgpuAtlasState.freeListWF (st : WgpuAtlasState) : Prop :=
  st.monochromeTextures.freeListWF ∧ st.polychromeTextures.freeListWF

instance (st : WgpuAtlasState) : Decidable st.freeListWF :=
  inferInstanceAs (Decidable (_ ∧ _))

theorem listOf_setListOf_same (st : WgpuAtlasState) (kind : AtlasTextureKind)
    (tl : AtlasTextureList) : (st.setListOf kind tl).listOf kind = tl := by
  cases kind <;> rfl

theorem setListOf_tilesByKey (st : WgpuAtlasState) (kind : AtlasTextureKind)
    (tl : AtlasTextureList) : (st.setListOf kind tl).tilesByKey = st.tilesByKey := by
  cases kind <;> rfl

theorem setListOf_uploads (st : WgpuAtlasState) (kind : AtlasTextureKind)
    (tl : AtlasTextureList) : (st.setListOf kind tl).uploads = st.uploads := by
  cases kind <;> rfl

theorem lookupKey_eraseKey (key : AtlasKey) (l : List (AtlasKey × AtlasTile)) :
    lookupKey key (eraseKey key l) = none := by
  induction l with
  | nil => rfl
  | cons p rest ih =>
    unfold eraseKey at ih ⊢
    rw [List.filter_cons]
    by_cases hp : p.1 = key
    · rw [if_neg (by simp [hp])]
      exact ih
    · rw [if_pos (by simp [hp]), lookupKey, if_neg hp]
      exact ih

theorem lookupKey_insertKey (key : AtlasKey) (tile : AtlasTile)
    (l : List (AtlasKey × AtlasTile)) : lookupKey key (insertKey key tile l) = some tile := by
  rw [insertKey, lookupKey, if_pos rfl]

/-- The guillotine packer of a freshly created default-or-larger texture always
satisfies the triggering request. -/
theorem fresh_allocFrom_isSome (s big : Size) (hw : s.width ≤ big.width)
    (hh : s.height ≤ big.height) :
    (allocFrom [⟨⟨0, 0⟩, big⟩] s).isSome := by
  rw [allocFrom, if_pos ⟨hw, hh⟩]
  rfl

theorem fresh_texture_allocate_isSome (t : WgpuAtlasTexture) (size : Size)
    (h : t.allocator = AllocatorState.new ⟨max size.width 1024, max size.height 1024⟩) :
    (t.allocate size).isSome := by
  obtain ⟨p, hp⟩ := Option.isSome_iff_exists.mp
    (fresh_allocFrom_isSome size ⟨max size.width 1024, max size.height 1024⟩
      (le_max_left _ _) (le_max_left _ _))
  obtain ⟨rect, free'⟩ := p
  simp only [WgpuAtlasTexture.allocate, AllocatorState.allocate, h, AllocatorState.new, hp,
    Option.isSome_some]

/-- Rust `push_texture` with a non-empty, in-range free list reuses the popped
slot index. -/
theorem pushTexture_cons_spec (st : WgpuAtlasState) (minSize : Size)
    (kind : AtlasTextureKind) (ix : Nat) (restFree : List Nat)
    (hfl : (st.listOf kind).freeList = ix :: restFree)
    (hix : ix < (st.listOf kind).textures.length) :
    st.pushTexture minSize kind =
      some (st.setListOf kind
        ⟨(st.listOf kind).textures.set ix (some (newTexFor minSize kind ix)), restFree⟩, ix) := by
  simp only [WgpuAtlasState.pushTexture, hfl]
  rw [if_pos hix]

/-- Rust `push_texture` with an empty free list appends a fresh slot. -/
theorem pushTexture_nil_spec (st : WgpuAtlasState) (minSize : Size)
    (kind : AtlasTextureKind) (hfl : (st.listOf kind).freeList = []) :
    st.pushTexture minSize kind =
      some (st.setListOf kind
        ⟨(st.listOf kind).textures ++
          [some (newTexFor minSize kind (st.listOf kind).textures.length)], []⟩,
        (st.listOf kind).textures.length) := by
  unfold WgpuAtlasState.pushTexture
  simp only [hfl]

theorem pushTexture_tilesByKey (st : WgpuAtlasState) (minSize : Size)
    (kind : AtlasTextureKind) (st₁ : WgpuAtlasState) (ix : Nat)
    (h : st.pushTexture minSize kind = some (st₁, ix)) : st₁.tilesByKey = st.tilesByKey := by
  unfold WgpuAtlasState.pushTexture at h
  cases hfl : (st.listOf kind).freeList with
  | cons i restFree =>
    simp only [hfl] at h
    by_cases hlt : i < (st.listOf kind).textures.length
    · simp only [if_pos hlt, Option.some.injEq, Prod.mk.injEq] at h
      rw [← h.1, setListOf_tilesByKey]
    · simp only [if_neg hlt] at h
      exact Option.noConfusion h
  | nil =>
    simp only [hfl, Option.some.injEq, Prod.mk.injEq] at h
    rw [← h.1, setListOf_tilesByKey]

theorem newTexFor_allocator (minSize : Size) (kind : AtlasTextureKind) (ix : Nat) :
    (newTexFor minSize kind ix).allocator =
      AllocatorState.new ⟨max minSize.width 1024, max minSize.height 1024⟩ := by
  cases kind <;> rfl

/-- Rust `WgpuAtlasState::allocate` never reaches its `expect` panics: from a state
whose free lists are well formed it always returns a tile. -/
theorem allocate_isSome (st : WgpuAtlasState) (size : Size) (kind : AtlasTextureKind)
    (hwf : st.freeListWF) : (st.allocate size kind).isSome := by
  cases hfa : findAllocRev (st.listOf kind).textures size with
  | some p => simp [WgpuAtlasState.allocate, hfa]
  | none =>
    have hwfk : ∀ i ∈ (st.listOf kind).freeList, i < (st.listOf kind).textures.length := by
      cases kind
      · exact hwf.1
      · exact hwf.2
    cases hfl : (st.listOf kind).freeList with
    | cons ix restFree =>
      have hix : ix < (st.listOf kind).textures.length :=
        hwfk ix (by rw [hfl]; exact List.mem_cons_self _ _)
      have hpt := pushTexture_cons_spec st size kind ix restFree hfl hix
      obtain ⟨q, hq⟩ := Option.isSome_iff_exists.mp
        (fresh_texture_allocate_isSome (newTexFor size kind ix) size
          (newTexFor_allocator size kind ix))
      obtain ⟨tile, tex'⟩ := q
      simp only [WgpuAtlasState.allocate, hfa, hpt, listOf_setListOf_same,
        List.get?_set_eq_of_lt (some (newTexFor size kind ix)) hix, hq, Option.isSome_some]
    | nil =>
      have hpt := pushTexture_nil_spec st size kind hfl
      obtain ⟨q, hq⟩ := Option.isSome_iff_exists.mp
        (fresh_texture_allocate_isSome (newTexFor size kind (st.listOf kind).textures.length)
          size (newTexFor_allocator size kind _))
      obtain ⟨tile, tex'⟩ := q
      simp only [WgpuAtlasState.allocate, hfa, hpt, listOf_setListOf_same,
        List.get?_concat_length, hq, Option.isSome_some]

/-- Rust `allocate` never touches the key→tile map. -/
theorem allocate_tilesByKey (st : WgpuAtlasState) (size : Size) (kind : AtlasTextureKind)
    (tile : AtlasTile) (st' : WgpuAtlasState)
    (h : st.allocate size kind = some (tile, st')) : st'.tilesByKey = st.tilesByKey := by
  unfold WgpuAtlasState.allocate at h
  cases hfa : findAllocRev (st.listOf kind).textures size with
  | some p =>
    obtain ⟨t, txs⟩ := p
    simp only [hfa, Option.some.injEq, Prod.mk.injEq] at h
    rw [← h.2, setListOf_tilesByKey]
  | none =>
    simp only [hfa] at h
    cases hpt : st.pushTexture size kind with
    | none =>
      simp only [hpt] at h
      exact Option.noConfusion h
    | some q =>
      obtain ⟨st₁, ix⟩ := q
      simp only [hpt] at h
      have h₁ : st₁.tilesByKey = st.tilesByKey := pushTexture_tilesByKey st size kind st₁ ix hpt
      cases hget : (st₁.listOf kind).textures.get? ix with
      | none =>
        simp only [hget] at h
        exact Option.noConfusion h
      | some slot =>
        cases slot with
        | none =>
          simp only [hget] at h
          exact Option.noConfusion h
        | some tex =>
          simp only [hget] at h
          cases hta : tex.allocate size with
          | none =>
            simp only [hta] at h
            exact Option.noConfusion h
          | some r =>
            obtain ⟨t₂, tex'⟩ := r
            simp only [hta, Option.some.injEq, Prod.mk.injEq] at h
            rw [← h.2, setListOf_tilesByKey, h₁]

/-- On a miss, `remove` leaves the state untouched. -/
theorem remove_absent (st : WgpuAtlasState) (key : AtlasKey)
    (h : lookupKey key st.tilesByKey = none) : WgpuAtlas.remove st key = st := by
  simp only [WgpuAtlas.remove, h]

/-- After any `remove key`, the map no longer contains `key`. -/
theorem remove_lookup_none (st : WgpuAtlasState) (key : AtlasKey) :
    lookupKey key (WgpuAtlas.remove st key).tilesByKey = none := by
  cases hl : lookupKey key st.tilesByKey with
  | none => rw [remove_absent st key hl, hl]
  | some tile =>
    simp only [WgpuAtlas.remove, hl]
    cases hget : ({ st with tilesByKey := eraseKey key st.tilesByKey } :
        WgpuAtlasState).listOf tile.textureId.kind |>.textures.get? tile.textureId.index with
    | none => simp only [hget, lookupKey_eraseKey]
    | some slot =>
      cases slot with
      | none => simp only [hget, lookupKey_eraseKey]
      | some tex =>
        simp only [hget]
        by_cases hz : tex.decrementRefCount.isUnreferenced
        · simp only [if_pos hz, setListOf_tilesByKey, lookupKey_eraseKey]
        · simp only [if_neg hz, setListOf_tilesByKey, lookupKey_eraseKey]

/-- C9: removing an absent key does not panic and leaves the whole atlas state
unchanged; after any `remove key` the cache no longer contains `key`, so a
second `remove key` is a no-op. -/
theorem c9_remove_absent_noop (st : WgpuAtlasState) (key : AtlasKey) :
    (lookupKey key st.tilesByKey = none → WgpuAtlas.remove st key = st) ∧
    lookupKey key (WgpuAtlas.remove st key).tilesByKey = none ∧
    WgpuAtlas.remove (WgpuAtlas.remove st key) key = WgpuAtlas.remove st key :=
  ⟨remove_absent st key, remove_lookup_none st key,
    remove_absent _ key (remove_lookup_none st key)⟩

/-- Witness for C9 at a concrete one-entry atlas and an absent key. -/
theorem c9_witness :
    (lookupKey ⟨5, .monochrome⟩ WgpuAtlasState.empty.tilesByKey = none →
      WgpuAtlas.remove WgpuAtlasState.empty ⟨5, .monochrome⟩ = WgpuAtlasState.empty) ∧
    lookupKey ⟨5, .monochrome⟩
      (WgpuAtlas.remove WgpuAtlasState.empty ⟨5, .monochrome⟩).tilesByKey = none ∧
    WgpuAtlas.remove (WgpuAtlas.remove WgpuAtlasState.empty ⟨5, .monochrome⟩) ⟨5, .monochrome⟩ =
      WgpuAtlas.remove WgpuAtlasState.empty ⟨5, .monochrome⟩ :=
  c9_remove_absent_noop WgpuAtlasState.empty ⟨5, .monochrome⟩

/-- Any cache miss invokes the build callback, whatever it returns. -/
theorem getOrInsertWith_miss_invoked {ε : Type} (st : WgpuAtlasState) (key : AtlasKey)
    (hl : lookupKey key st.tilesByKey = none) (hwf : st.freeListWF)
    (build : Except ε (Option (Size × Nat))) :
    ∃ res st₂, WgpuAtlas.getOrInsertWith st key build = some (res, st₂, true) := by
  cases build with
  | error e => exact ⟨.error e, st, by simp only [WgpuAtlas.getOrInsertWith, hl]⟩
  | ok content =>
    cases content with
    | none => exact ⟨.ok none, st, by simp only [WgpuAtlas.getOrInsertWith, hl]⟩
    | some payload =>
      obtain ⟨size, dataLen⟩ := payload
      obtain ⟨q, hq⟩ := Option.isSome_iff_exists.mp (allocate_isSome st size key.textureKind hwf)
      obtain ⟨tile, st'⟩ := q
      simp only [WgpuAtlas.getOrInsertWith, hl, hq]
      exact ⟨_, _, rfl⟩

/-- The state produced by a successful miss insertion maps `key` to the
returned tile. -/
theorem getOrInsertWith_inserted {ε : Type} (st : WgpuAtlasState) (key : AtlasKey)
    (size : Size) (dataLen : Nat) (hl : lookupKey key st.tilesByKey = none)
    (res : Except ε (Option AtlasTile)) (st₂ : WgpuAtlasState) (invoked : Bool)
    (h : WgpuAtlas.getOrInsertWith st key
          (Except.ok (some (size, dataLen)) : Except ε (Option (Size × Nat))) =
        some (res, st₂, invoked)) :
    ∃ tile, res = .ok (some tile) ∧ invoked = true ∧
      lookupKey key st₂.tilesByKey = some tile := by
  simp only [WgpuAtlas.getOrInsertWith, hl] at h
  cases hq : st.allocate size key.textureKind with
  | none =>
    simp only [hq] at h
    exact Option.noConfusion h
  | some q =>
    obtain ⟨tile, st'⟩ := q
    simp only [hq, Option.some.injEq, Prod.mk.injEq] at h
    refine ⟨tile, h.1.symm, h.2.2.symm, ?_⟩
    rw [← h.2.1]
    simp only [WgpuAtlasState.uploadTexture, lookupKey_insertKey]

/-- C3: a hit returns the stored tile unchanged without invoking the build
callback; hence after a first call that cached real content, a second call
with the same key returns the same tile without invoking its callback. -/
theorem c3_get_or_insert_dedup {ε : Type} (st : WgpuAtlasState) (key : AtlasKey) :
    (∀ tile, lookupKey key st.tilesByKey = some tile →
      ∀ build : Except ε (Option (Size × Nat)),
        WgpuAtlas.getOrInsertWith st key build = some (.ok (some tile), st, false)) ∧
    (lookupKey key st.tilesByKey = none → st.freeListWF →
      ∀ size dataLen, ∃ tile st',
        WgpuAtlas.getOrInsertWith st key
          (Except.ok (some (size, dataLen)) : Except ε (Option (Size × Nat))) =
          some (.ok (some tile), st', true) ∧
        ∀ build₂ : Except ε (Option (Size × Nat)),
          WgpuAtlas.getOrInsertWith st' key build₂ = some (.ok (some tile), st', false)) := by
  constructor
  · intro tile hl build
    simp only [WgpuAtlas.getOrInsertWith, hl]
  · intro hl hwf size dataLen
    obtain ⟨res, st₂, h⟩ := getOrInsertWith_miss_invoked st key hl hwf
      (Except.ok (some (size, dataLen)))
    obtain ⟨tile, hres, _, hmap⟩ :=
      getOrInsertWith_inserted st key size dataLen hl res st₂ true h
    subst hres
    refine ⟨tile, st₂, h, ?_⟩
    intro build₂
    simp only [WgpuAtlas.getOrInsertWith, hmap]

/-- Witness for C3: an empty atlas, a concrete key and a 64×64 rasterization. -/
theorem c3_witness :
    ∃ tile st',
      WgpuAtlas.getOrInsertWith WgpuAtlasState.empty ⟨1, .monochrome⟩
        (Except.ok (some (⟨64, 64⟩, 4096)) : Except Unit (Option (Size × Nat))) =
        some (.ok (some tile), st', true) ∧
      ∀ build₂ : Except Unit (Option (Size × Nat)),
        WgpuAtlas.getOrInsertWith st' ⟨1, .monochrome⟩ build₂ =
          some (.ok (some tile), st', false) :=
  (c3_get_or_insert_dedup WgpuAtlasState.empty ⟨1, .monochrome⟩).2 (by decide) (by decide) _ _

/-- C4: on a miss whose callback reports zero visible pixels, nothing is
cached — the state is returned unchanged — so any later call with the same
key invokes its callback again; real content, by contrast, is cached. -/
theorem c4_empty_content_not_cached {ε : Type} (st : WgpuAtlasState) (key : AtlasKey)
    (hl : lookupKey key st.tilesByKey = none) (hwf : st.freeListWF) :
    (WgpuAtlas.getOrInsertWith st key (Except.ok none : Except ε (Option (Size × Nat))) =
      some (.ok none, st, true)) ∧
    (∀ build₂ : Except ε (Option (Size × Nat)),
      ∃ res st₂, WgpuAtlas.getOrInsertWith st key build₂ = some (res, st₂, true)) ∧
    (∀ size dataLen, ∃ tile st',
      WgpuAtlas.getOrInsertWith st key
        (Except.ok (some (size, dataLen)) : Except ε (Option (Size × Nat))) =
        some (.ok (some tile), st', true) ∧
      lookupKey key st'.tilesByKey = some tile) := by
  refine ⟨by simp only [WgpuAtlas.getOrInsertWith, hl],
    fun build₂ => getOrInsertWith_miss_invoked st key hl hwf build₂, ?_⟩
  intro size dataLen
  obtain ⟨res, st₂, h⟩ := getOrInsertWith_miss_invoked st key hl hwf
    (Except.ok (some (size, dataLen)))
  obtain ⟨tile, hres, _, hmap⟩ := getOrInsertWith_inserted st key size dataLen hl res st₂ true h
  subst hres
  exact ⟨tile, st₂, h, hmap⟩

/-- Witness for C4 at the empty atlas. -/
theorem c4_witness :
    (WgpuAtlas.getOrInsertWith WgpuAtlasState.empty ⟨2, .polychrome⟩
      (Except.ok none : Except Unit (Option (Size × Nat))) =
      some (.ok none, WgpuAtlasState.empty, true)) ∧
    (∀ build₂ : Except Unit (Option (Size × Nat)),
      ∃ res st₂, WgpuAtlas.getOrInsertWith WgpuAtlasState.empty ⟨2, .polychrome⟩ build₂ =
        some (res, st₂, true)) ∧
    (∀ size dataLen, ∃ tile st',
      WgpuAtlas.getOrInsertWith WgpuAtlasState.empty ⟨2, .polychrome⟩
        (Except.ok (some (size, dataLen)) : Except Unit (Option (Size × Nat))) =
        some (.ok (some tile), st', true) ∧
      lookupKey ⟨2, .polychrome⟩ st'.tilesByKey = some tile) :=
  c4_empty_content_not_cached WgpuAtlasState.empty ⟨2, .polychrome⟩ (by decide) (by decide)

/-- C10: a miss whose callback fails propagates the error and leaves the atlas
state entirely unchanged — no tile allocated, no map entry, no upload queued —
so a later call with the same key invokes a callback again. -/
theorem c10_error_leaves_state_unchanged {ε : Type} (st : WgpuAtlasState) (key : AtlasKey)
    (e : ε) (hl : lookupKey key st.tilesByKey = none) :
    (WgpuAtlas.getOrInsertWith st key (Except.error e : Except ε (Option (Size × Nat))) =
      some (.error e, st, true)) ∧
    (st.freeListWF → ∀ build₂ : Except ε (Option (Size × Nat)),
      ∃ res st₂, WgpuAtlas.getOrInsertWith st key build₂ = some (res, st₂, true)) :=
  ⟨by simp only [WgpuAtlas.getOrInsertWith, hl],
    fun hwf build₂ => getOrInsertWith_miss_invoked st key hl hwf build₂⟩

/-- Witness for C10 at the empty atlas with a concrete error value. -/
theorem c10_witness :
    (WgpuAtlas.getOrInsertWith WgpuAtlasState.empty ⟨3, .monochrome⟩
      (Except.error 7 : Except Nat (Option (Size × Nat))) =
      some (.error 7, WgpuAtlasState.empty, true)) ∧
    (WgpuAtlasState.empty.freeListWF → ∀ build₂ : Except Nat (Option (Size × Nat)),
      ∃ res st₂, WgpuAtlas.getOrInsertWith WgpuAtlasState.empty ⟨3, .monochrome⟩ build₂ =
        some (res, st₂, true)) :=
  c10_error_leaves_state_unchanged WgpuAtlasState.empty ⟨3, .monochrome⟩ 7 (by decide)

theorem listOf_setTilesByKey (st : WgpuAtlasState) (kind : AtlasTextureKind)
    (m : List (AtlasKey × AtlasTile)) :
    ({ st with tilesByKey := m } : WgpuAtlasState).listOf kind = st.listOf kind := by
  cases kind <;> rfl

/-- C5: when `remove` evicts the last live tile of a texture, that texture's
slot index is pushed onto its kind's free list and the slot is emptied; the
next `push_texture` for a kind pops and reuses a free-listed index, appending
a new slot only when the free list is empty. -/
theorem c5_evict_frees_slot_and_reuse (st : WgpuAtlasState) (key : AtlasKey)
    (tile : AtlasTile) (tex : WgpuAtlasTexture)
    (hl : lookupKey key st.tilesByKey = some tile)
    (hs : (st.listOf tile.textureId.kind).textures.get? tile.textureId.index = some (some tex))
    (hlive : tex.liveAtlasKeys = 1) :
    (((WgpuAtlas.remove st key).listOf tile.textureId.kind).textures.get?
        tile.textureId.index = some none ∧
      ((WgpuAtlas.remove st key).listOf tile.textureId.kind).freeList =
        tile.textureId.index :: (st.listOf tile.textureId.kind).freeList) ∧
    (∀ (st₂ : WgpuAtlasState) (minSize : Size) (kind : AtlasTextureKind) (ix : Nat)
        (restFree : List Nat),
      (st₂.listOf kind).freeList = ix :: restFree → ix < (st₂.listOf kind).textures.length →
      ∃ st₃, st₂.pushTexture minSize kind = some (st₃, ix) ∧
        (st₃.listOf kind).freeList = restFree ∧
        (st₃.listOf kind).textures.length = (st₂.listOf kind).textures.length ∧
        (st₃.listOf kind).textures.get? ix = some (some (newTexFor minSize kind ix))) ∧
    (∀ (st₂ : WgpuAtlasState) (minSize : Size) (kind : AtlasTextureKind),
      (st₂.listOf kind).freeList = [] →
      ∃ st₃, st₂.pushTexture minSize kind = some (st₃, (st₂.listOf kind).textures.length) ∧
        (st₃.listOf kind).textures.length = (st₂.listOf kind).textures.length + 1) := by
  have hidx : tile.textureId.index < (st.listOf tile.textureId.kind).textures.length := by
    obtain ⟨hlt, _⟩ := List.get?_eq_some.mp hs
    exact hlt
  refine ⟨?_, ?_, ?_⟩
  · have hzero : (tex.decrementRefCount).isUnreferenced = true := by
      simp [WgpuAtlasTexture.decrementRefCount, WgpuAtlasTexture.isUnreferenced, hlive]
    simp only [WgpuAtlas.remove, hl, listOf_setTilesByKey, hs, hzero, if_pos,
      listOf_setListOf_same]
    exact ⟨List.get?_set_eq_of_lt none hidx, trivial⟩
  · intro st₂ minSize kind ix restFree hfl hix
    refine ⟨_, pushTexture_cons_spec st₂ minSize kind ix restFree hfl hix, ?_, ?_, ?_⟩
    · rw [listOf_setListOf_same]
    · rw [listOf_setListOf_same]
      exact List.length_set _ _ _
    · rw [listOf_setListOf_same]
      exact List.get?_set_eq_of_lt _ hix
  · intro st₂ minSize kind hfl
    refine ⟨_, pushTexture_nil_spec st₂ minSize kind hfl, ?_⟩
    rw [listOf_setListOf_same]
    simp

/-- Witness for C5: a one-texture monochrome atlas whose single texture has
one live key, holding the tile for that key. -/
theorem c5_witness :
    (((WgpuAtlas.remove
        ⟨⟨[some ⟨⟨0, .monochrome⟩, AllocatorState.new ⟨1024, 1024⟩, ⟨1024, 1024⟩,
            .r8Unorm, 1⟩], []⟩,
          AtlasTextureList.empty,
          [(⟨9, .monochrome⟩, ⟨⟨0, .monochrome⟩, 0, 0, ⟨⟨0, 0⟩, ⟨64, 64⟩⟩⟩)], []⟩
        ⟨9, .monochrome⟩).listOf .monochrome).textures.get? 0 = some none ∧
      ((WgpuAtlas.remove
        ⟨⟨[some ⟨⟨0, .monochrome⟩, AllocatorState.new ⟨1024, 1024⟩, ⟨1024, 1024⟩,
            .r8Unorm, 1⟩], []⟩,
          AtlasTextureList.empty,
          [(⟨9, .monochrome⟩, ⟨⟨0, .monochrome⟩, 0, 0, ⟨⟨0, 0⟩, ⟨64, 64⟩⟩⟩)], []⟩
        ⟨9, .monochrome⟩).listOf .monochrome).freeList = 0 :: []) ∧
    (∀ (st₂ : WgpuAtlasState) (minSize : Size) (kind : AtlasTextureKind) (ix : Nat)
        (restFree : List Nat),
      (st₂.listOf kind).freeList = ix :: restFree → ix < (st₂.listOf kind).textures.length →
      ∃ st₃, st₂.pushTexture minSize kind = some (st₃, ix) ∧
        (st₃.listOf kind).freeList = restFree ∧
        (st₃.listOf kind).textures.length = (st₂.listOf kind).textures.length ∧
        (st₃.listOf kind).textures.get? ix = some (some (newTexFor minSize kind ix))) ∧
    (∀ (st₂ : WgpuAtlasState) (minSize : Size) (kind : AtlasTextureKind),
      (st₂.listOf kind).freeList = [] →
      ∃ st₃, st₂.pushTexture minSize kind = some (st₃, (st₂.listOf kind).textures.length) ∧
        (st₃.listOf kind).textures.length = (st₂.listOf kind).textures.length + 1) :=
  c5_evict_frees_slot_and_reuse _ ⟨9, .monochrome⟩
    ⟨⟨0, .monochrome⟩, 0, 0, ⟨⟨0, 0⟩, ⟨64, 64⟩⟩⟩
    ⟨⟨0, .monochrome⟩, AllocatorState.new ⟨1024, 1024⟩, ⟨1024, 1024⟩, .r8Unorm, 1⟩
    (by decide) (by decide) (by decide)

def c7Key : AtlasKey := ⟨0, .monochrome⟩

def c7Insert : Option (Except Unit (Option AtlasTile) × WgpuAtlasState × Bool) :=
  WgpuAtlas.getOrInsertWith WgpuAtlasState.empty c7Key
    (Except.ok (some (⟨64, 64⟩, 4096)) : Except Unit (Option (Size × Nat)))

def c7AfterInsert : WgpuAtlasState :=
  match c7Insert with
  | some (_, st, _) => st
  | none => WgpuAtlasState.empty

/-- C7: the claimed no-panic property fails on the code.  Inserting a tile
for a key, removing that key (which frees the texture slot while the tile's
upload is still queued), and then calling `before_frame` drives
`flush_uploads` into `storage[upload.id]`, whose
`expect("texture should exist")` panics — modelled by the `none` result.
Before the removal the same `before_frame` returns normally. -/
theorem c7_before_frame_panics :
    c7Insert.isSome = true ∧
    c7AfterInsert.uploads ≠ [] ∧
    (WgpuAtlas.beforeFrame c7AfterInsert).isSome = true ∧
    WgpuAtlas.beforeFrame (WgpuAtlas.remove c7AfterInsert c7Key) = none := by
  decide

/-- When every populated slot fails to allocate, the reverse search fails. -/
theorem findAllocRev_none :
    ∀ (l : List (Option WgpuAtlasTexture)) (s : Size),
      (∀ j tex, l.get? j = some (some tex) → tex.allocate s = none) →
      findAllocRev l s = none := by
  intro l
  induction l with
  | nil => intro s _; rfl
  | cons slot rest ih =>
    intro s h
    have hrest : findAllocRev rest s = none := ih s (fun j tex hj => h (j + 1) tex hj)
    cases slot with
    | none => simp only [findAllocRev, hrest]
    | some t => simp only [findAllocRev, hrest, h 0 t rfl]

/-- The reverse search returns the tile of the *last* populated slot that can
satisfy the request, updating that one slot in place. -/
theorem findAllocRev_found :
    ∀ (l : List (Option WgpuAtlasTexture)) (s : Size) (j : Nat) (tex : WgpuAtlasTexture)
      (tile : AtlasTile) (tex' : WgpuAtlasTexture),
      l.get? j = some (some tex) →
      tex.allocate s = some (tile, tex') →
      (∀ j' tex₂, j < j' → l.get? j' = some (some tex₂) → tex₂.allocate s = none) →
      findAllocRev l s = some (tile, l.set j (some tex')) := by
  intro l
  induction l with
  | nil =>
    intro s j tex tile tex' hj
    simp at hj
  | cons slot rest ih =>
    intro s j tex tile tex' hj ha hafter
    cases j with
    | zero =>
      have hslot : slot = some tex := by simpa using hj
      subst hslot
      have hrest : findAllocRev rest s = none :=
        findAllocRev_none rest s
          (fun j' tex₂ hj' => hafter (j' + 1) tex₂ (Nat.succ_pos _) hj')
      simp only [findAllocRev, hrest, ha, List.set_cons_zero]
    | succ j' =>
      have hj2 : rest.get? j' = some (some tex) := hj
      have hrest := ih s j' tex tile tex' hj2 ha
        (fun k tex₂ hk hgk => hafter (k + 1) tex₂ (Nat.succ_lt_succ hk) hgk)
      simp only [findAllocRev, hrest, List.set_cons_succ]

theorem texAllocate_fields (t : WgpuAtlasTexture) (s : Size) (tile : AtlasTile)
    (t' : WgpuAtlasTexture) (h : t.allocate s = some (tile, t')) :
    tile.textureId = t.id ∧ t'.id = t.id ∧ t'.format = t.format ∧ t'.texSize = t.texSize := by
  unfold WgpuAtlasTexture.allocate at h
  cases hq : t.allocator.allocate s with
  | none =>
    simp only [hq] at h
    exact Option.noConfusion h
  | some r =>
    obtain ⟨aid, rect, alloc'⟩ := r
    simp only [hq, Option.some.injEq, Prod.mk.injEq] at h
    refine ⟨?_, ?_, ?_, ?_⟩
    · rw [← h.1]
    · rw [← h.2]
    · rw [← h.2]
    · rw [← h.2]

theorem newTexFor_texSize (minSize : Size) (kind : AtlasTextureKind) (ix : Nat) :
    (newTexFor minSize kind ix).texSize = ⟨max minSize.width 1024, max minSize.height 1024⟩ := by
  cases kind <;> rfl

theorem newTexFor_format (minSize : Size) (kind : AtlasTextureKind) (ix : Nat) :
    (newTexFor minSize kind ix).format =
      (match kind with
        | AtlasTextureKind.monochrome => TextureFormat.r8Unorm
        | AtlasTextureKind.polychrome => TextureFormat.bgra8Unorm) := by
  cases kind <;> rfl

theorem newTexFor_id (minSize : Size) (kind : AtlasTextureKind) (ix : Nat) :
    (newTexFor minSize kind ix).id = ⟨ix, kind⟩ := rfl

theorem setListOf_setListOf (st : WgpuAtlasState) (kind : AtlasTextureKind)
    (a b : AtlasTextureList) :
    (st.setListOf kind a).setListOf kind b = st.setListOf kind b := by
  cases kind <;> rfl

/-- C6: `allocate(size, kind)` first tries the existing textures of that kind
in reverse list order — succeeding at the last one that can satisfy the
request, without growing the texture list — and only when every existing
texture fails creates exactly one new texture, of extent
`max(requested, 1024)` per axis and the kind's format (`R8Unorm` for
monochrome, `Bgra8Unorm` for polychrome), which then satisfies the
allocation. -/
theorem c6_allocate_reverse_search_then_new (st : WgpuAtlasState) (size : Size)
    (kind : AtlasTextureKind) :
    (∀ j tex tile tex',
       (st.listOf kind).textures.get? j = some (some tex) →
       tex.allocate size = some (tile, tex') →
       (∀ j' tex₂, j < j' → (st.listOf kind).textures.get? j' = some (some tex₂) →
          tex₂.allocate size = none) →
       st.allocate size kind =
         some (tile, st.setListOf kind
           ⟨(st.listOf kind).textures.set j (some tex'), (st.listOf kind).freeList⟩)) ∧
    ((∀ j tex, (st.listOf kind).textures.get? j = some (some tex) →
        tex.allocate size = none) →
      st.freeListWF →
      ∃ tile st' ix newTex,
        st.allocate size kind = some (tile, st') ∧
        (st'.listOf kind).textures.get? ix = some (some newTex) ∧
        newTex.texSize = ⟨max size.width 1024, max size.height 1024⟩ ∧
        newTex.format = (match kind with
          | AtlasTextureKind.monochrome => TextureFormat.r8Unorm
          | AtlasTextureKind.polychrome => TextureFormat.bgra8Unorm) ∧
        tile.textureId = newTex.id ∧ newTex.id = ⟨ix, kind⟩ ∧
        ((st.listOf kind).freeList = [] →
          ix = (st.listOf kind).textures.length ∧
          (st'.listOf kind).textures.length = (st.listOf kind).textures.length + 1) ∧
        (∀ i rest, (st.listOf kind).freeList = i :: rest →
          ix = i ∧ (st'.listOf kind).textures.length = (st.listOf kind).textures.length)) := by
  constructor
  · intro j tex tile tex' hj ha hafter
    have hfa := findAllocRev_found (st.listOf kind).textures size j tex tile tex' hj ha hafter
    simp only [WgpuAtlasState.allocate, hfa]
  · intro hfail hwf
    have hfa : findAllocRev (st.listOf kind).textures size = none :=
      findAllocRev_none (st.listOf kind).textures size hfail
    have hwfk : ∀ i ∈ (st.listOf kind).freeList, i < (st.listOf kind).textures.length := by
      cases kind
      · exact hwf.1
      · exact hwf.2
    cases hfl : (st.listOf kind).freeList with
    | cons ix restFree =>
      have hix : ix < (st.listOf kind).textures.length :=
        hwfk ix (by rw [hfl]; exact List.mem_cons_self _ _)
      have hpt := pushTexture_cons_spec st size kind ix restFree hfl hix
      obtain ⟨q, hq⟩ := Option.isSome_iff_exists.mp
        (fresh_texture_allocate_isSome (newTexFor size kind ix) size
          (newTexFor_allocator size kind ix))
      obtain ⟨tile, tex'⟩ := q
      have hfields := texAllocate_fields _ _ _ _ hq
      have hix' : ix <
          ((st.listOf kind).textures.set ix (some (newTexFor size kind ix))).length := by
        rw [List.length_set]
        exact hix
      have heq : st.allocate size kind =
          some (tile, st.setListOf kind
            ⟨((st.listOf kind).textures.set ix (some (newTexFor size kind ix))).set ix
              (some tex'), restFree⟩) := by
        simp only [WgpuAtlasState.allocate, hfa, hpt, listOf_setListOf_same,
          List.get?_set_eq_of_lt (some (newTexFor size kind ix)) hix, hq,
          setListOf_setListOf]
      refine ⟨tile, _, ix, tex', heq, ?_, ?_, ?_, ?_, ?_, ?_, ?_⟩
      · simp only [listOf_setListOf_same]
        exact List.get?_set_eq_of_lt _ hix'
      · rw [hfields.2.2.2, newTexFor_texSize]
      · rw [hfields.2.2.1, newTexFor_format]
      · rw [hfields.1, hfields.2.1]
      · rw [hfields.2.1, newTexFor_id]
      · intro hnil
        exact List.noConfusion hnil
      · intro i rest hcons
        obtain ⟨hi, _⟩ := List.cons.inj hcons
        refine ⟨hi, ?_⟩
        simp only [listOf_setListOf_same, List.length_set]
    | nil =>
      have hpt := pushTexture_nil_spec st size kind hfl
      obtain ⟨q, hq⟩ := Option.isSome_iff_exists.mp
        (fresh_texture_allocate_isSome
          (newTexFor size kind (st.listOf kind).textures.length) size
          (newTexFor_allocator size kind _))
      obtain ⟨tile, tex'⟩ := q
      have hfields := texAllocate_fields _ _ _ _ hq
      have hlen : (st.listOf kind).textures.length <
          ((st.listOf kind).textures ++
            [some (newTexFor size kind (st.listOf kind).textures.length)]).length := by
        rw [List.length_append]
        simp
      have heq : st.allocate size kind =
          some (tile, st.setListOf kind
            ⟨((st.listOf kind).textures ++
                [some (newTexFor size kind (st.listOf kind).textures.length)]).set
              (st.listOf kind).textures.length (some tex'), []⟩) := by
        simp only [WgpuAtlasState.allocate, hfa, hpt, listOf_setListOf_same,
          List.get?_concat_length, hq, setListOf_setListOf]
      refine ⟨tile, _, (st.listOf kind).textures.length, tex', heq, ?_, ?_, ?_, ?_, ?_, ?_, ?_⟩
      · simp only [listOf_setListOf_same]
        exact List.get?_set_eq_of_lt _ hlen
      · rw [hfields.2.2.2, newTexFor_texSize]
      · rw [hfields.2.2.1, newTexFor_format]
      · rw [hfields.1, hfields.2.1]
      · rw [hfields.2.1, newTexFor_id]
      · intro _
        refine ⟨rfl, ?_⟩
        simp only [listOf_setListOf_same, List.length_set, List.length_append]
        simp
      · intro i rest hcons
        exact List.noConfusion hcons

/-- A monochrome atlas holding one exhausted texture (its packer has no free
rectangles), used to witness C6. -/
def c6State : WgpuAtlasState :=
  ⟨⟨[some ⟨⟨0, .monochrome⟩, ⟨[], 3⟩, ⟨1024, 1024⟩, .r8Unorm, 2⟩], []⟩,
    AtlasTextureList.empty, [], []⟩

/-- Witness for C6: on `c6State` the search over existing textures fails and a
new default-size texture is created in a fresh slot. -/
theorem c6_witness :
    (∀ j tex tile tex',
       (c6State.listOf .monochrome).textures.get? j = some (some tex) →
       tex.allocate ⟨64, 64⟩ = some (tile, tex') →
       (∀ j' tex₂, j < j' →
          (c6State.listOf .monochrome).textures.get? j' = some (some tex₂) →
          tex₂.allocate ⟨64, 64⟩ = none) →
       c6State.allocate ⟨64, 64⟩ .monochrome =
         some (tile, c6State.setListOf .monochrome
           ⟨(c6State.listOf .monochrome).textures.set j (some tex'),
             (c6State.listOf .monochrome).freeList⟩)) ∧
    ((∀ j tex,
        (c6State.listOf .monochrome).textures.get? j = some (some tex) →
        tex.allocate ⟨64, 64⟩ = none) →
      c6State.freeListWF →
      ∃ tile st' ix newTex,
        c6State.allocate ⟨64, 64⟩ .monochrome = some (tile, st') ∧
        (st'.listOf .monochrome).textures.get? ix = some (some newTex) ∧
        newTex.texSize = ⟨max (64 : Int) 1024, max (64 : Int) 1024⟩ ∧
        newTex.format = (match AtlasTextureKind.monochrome with
          | AtlasTextureKind.monochrome => TextureFormat.r8Unorm
          | AtlasTextureKind.polychrome => TextureFormat.bgra8Unorm) ∧
        tile.textureId = newTex.id ∧ newTex.id = ⟨ix, .monochrome⟩ ∧
        ((c6State.listOf .monochrome).freeList = [] →
          ix = (c6State.listOf .monochrome).textures.length ∧
          (st'.listOf .monochrome).textures.length =
            (c6State.listOf .monochrome).textures.length + 1) ∧
        (∀ i rest, (c6State.listOf .monochrome).freeList = i :: rest →
          ix = i ∧ (st'.listOf .monochrome).textures.length =
            (c6State.listOf .monochrome).textures.length)) :=
  c6_allocate_reverse_search_then_new c6State ⟨64, 64⟩ .monochrome

/-- Rust `Bounds::union` from the gpui geometry layer (spec §2 GeometryTypes, not
under `src/`): the smallest axis-aligned rectangle containing both. -/
def Bounds.union (a b : Bounds) : Bounds :=
  ⟨⟨min a.origin.x b.origin.x, min a.origin.y b.origin.y⟩,
    ⟨max a.right b.right - min a.origin.x b.origin.x,
      max a.bottom b.bottom - min a.origin.y b.origin.y⟩⟩

/-- One `Path<ScaledPixels>` as the renderer reads it: its paint order
(`DrawOrder`, a `u32`), the result of `clipped_bounds()` (computed by gpui
core outside this backend, hence carried as data), and its vertex count. -/
structure PathData where
  order : Nat
  clippedBounds : Bounds
  vertexCount : Nat
  deriving DecidableEq, Repr

/-- The seven GPU pipelines of `WgpuPipelines` that issue draw calls. -/
inductive PipelineKind
  | quads
  | shadows
  | underlines
  | monoSprites
  | polySprites
  | pathRasterization
  | paths
  deriving DecidableEq, Repr

/-- Which color target a render pass writes. -/
inductive PassTarget
  | framebuffer
  | intermediate
  deriving DecidableEq, Repr

/-- Rust `wgpu::LoadOp` as used by `draw`: clear to transparent or load. -/
inductive LoadOpE
  | clearOp
  | loadOp
  deriving DecidableEq, Repr

/-- Observable GPU commands recorded while encoding one frame. -/
inductive DrawEvent
  | beginPass (target : PassTarget) (load : LoadOpE)
  | draw (target : PassTarget) (pipeline : PipelineKind) (vertexCount instanceCount : Nat)
  deriving DecidableEq, Repr

/-- Rust `PrimitiveBatch` (gpui scene): a homogeneous run of primitives.  The
draw functions read only the instance slices' lengths for control flow, so
non-path batches carry their instance count; path batches carry the per-path
data the two-pass pipeline inspects. -/
inductive PrimitiveBatch
  | quads (n : Nat)
  | shadows (n : Nat)
  | underlines (n : Nat)
  | monochromeSprites (textureId : AtlasTextureId) (n : Nat)
  | polychromeSprites (textureId : AtlasTextureId) (n : Nat)
  | surfaces (n : Nat)
  | paths (ps : List PathData)
  deriving DecidableEq, Repr

/-- Rust `paths.iter().flat_map(|p| p.vertices)` length, the vertex count the
rasterization pass draws. -/
def pathVertexTotal (ps : List PathData) : Nat :=
  (ps.map PathData.vertexCount).sum

/-- The `for path in paths.iter().skip(1) { bounds = bounds.union(...) }`
fold of `draw_path_sprites`. -/
def unionBoundsFold : Bounds → List PathData → Bounds
  | acc, [] => acc
  | acc, p :: rest => unionBoundsFold (acc.union p.clippedBounds) rest

/-- The sprite list built by `WgpuRenderer::draw_path_sprites`
(wgpu_renderer.rs:1261-1277): when the last path's order equals the first
path's order, one sprite per path with its own clipped bounds; otherwise a
single sprite covering the union of all the paths' clipped bounds. -/
def pathSprites : List PathData → List Bounds
  | [] => []
  | first :: rest =>
    if (first :: rest).getLast?.map PathData.order = some first.order then
      (first :: rest).map PathData.clippedBounds
    else
      [unionBoundsFold first.clippedBounds rest]

/-- The commands one batch contributes in `WgpuRenderer::draw`
(wgpu_renderer.rs:1051-1137), together with the updated `is_first_pass` flag
and whether the path intermediate texture now exists.  A path batch first
rasterizes into the intermediate target (clearing it) when it has any
vertices, then copies the filled regions onto the framebuffer in one
instanced draw; every non-path batch begins a framebuffer pass even when its
instance slice is empty, and `Surfaces` draws nothing (unsupported on web). -/
def drawBatch (isFirst intermediateExists : Bool) :
    PrimitiveBatch → List DrawEvent × Bool × Bool
  | .paths ps =>
    if ps.isEmpty then ([], isFirst, intermediateExists)
    else
      let rasterEvents :=
        if pathVertexTotal ps == 0 then []
        else
          [DrawEvent.beginPass .intermediate .clearOp,
            DrawEvent.draw .intermediate .pathRasterization (pathVertexTotal ps) 1]
      let load := if isFirst then LoadOpE.clearOp else LoadOpE.loadOp
      (rasterEvents ++
        [DrawEvent.beginPass .framebuffer load,
          DrawEvent.draw .framebuffer .paths 4 (pathSprites ps).length],
        false, true)
  | .quads n =>
    let load := if isFirst then LoadOpE.clearOp else LoadOpE.loadOp
    ([DrawEvent.beginPass .framebuffer load] ++
      (if n == 0 then [] else [DrawEvent.draw .framebuffer .quads 4 n]),
      false, intermediateExists)
  | .shadows n =>
    let load := if isFirst then LoadOpE.clearOp else LoadOpE.loadOp
    ([DrawEvent.beginPass .framebuffer load] ++
      (if n == 0 then [] else [DrawEvent.draw .framebuffer .shadows 4 n]),
      false, intermediateExists)
  | .underlines n =>
    let load := if isFirst then LoadOpE.clearOp else LoadOpE.loadOp
    ([DrawEvent.beginPass .framebuffer load] ++
      (if n == 0 then [] else [DrawEvent.draw .framebuffer .underlines 4 n]),
      false, intermediateExists)
  | .monochromeSprites _ n =>
    let load := if isFirst then LoadOpE.clearOp else LoadOpE.loadOp
    ([DrawEvent.beginPass .framebuffer load] ++
      (if n == 0 then [] else [DrawEvent.draw .framebuffer .monoSprites 4 n]),
      false, intermediateExists)
  | .polychromeSprites _ n =>
    let load := if isFirst then LoadOpE.clearOp else LoadOpE.loadOp
    ([DrawEvent.beginPass .framebuffer load] ++
      (if n == 0 then [] else [DrawEvent.draw .framebuffer .polySprites 4 n]),
      false, intermediateExists)
  | .surfaces _ =>
    let load := if isFirst then LoadOpE.clearOp else LoadOpE.loadOp
    ([DrawEvent.beginPass .framebuffer load], false, intermediateExists)

/-- The `for batch in scene.batches()` loop of `draw`, recording each
command tagged with the index of the batch that issued it. -/
def drawLoop : Nat → Bool → Bool → List PrimitiveBatch → List (Nat × DrawEvent)
  | _, _, _, [] => []
  | ix, isFirst, inter, b :: rest =>
    match drawBatch isFirst inter b with
    | (evs, isFirst', inter') =>
      evs.map (fun e => (ix, e)) ++ drawLoop (ix + 1) isFirst' inter' rest

/-- The command trace of `WgpuRenderer::draw` over one scene, starting from
`is_first_pass = true` and a given intermediate-texture state. -/
def drawTrace (intermediateExists : Bool) (scene : List PrimitiveBatch) :
    List (Nat × DrawEvent) :=
  drawLoop 0 true intermediateExists scene

/-- Is this event a draw call into the framebuffer? -/
def DrawEvent.isFramebufferDraw : DrawEvent → Bool
  | .draw .framebuffer _ _ _ => true
  | _ => false

/-- Is this event the destination-copy draw of a path batch? -/
def DrawEvent.isPathCopyDraw : DrawEvent → Bool
  | .draw .framebuffer .paths _ _ => true
  | _ => false

/-- Every command in a loop suffix carries a batch index at least the
starting index. -/
theorem drawLoop_tag_ge :
    ∀ (scene : List PrimitiveBatch) (ix : Nat) (isFirst inter : Bool) (e : Nat × DrawEvent),
      e ∈ drawLoop ix isFirst inter scene → ix ≤ e.1 := by
  intro scene
  induction scene with
  | nil =>
    intro ix _ _ e he
    simp [drawLoop] at he
  | cons b rest ih =>
    intro ix isFirst inter e he
    rcases hdb : drawBatch isFirst inter b with ⟨evs, isF', int'⟩
    simp only [drawLoop, hdb] at he
    rcases List.mem_append.mp he with hm | hm
    · obtain ⟨a, _, rfl⟩ := List.mem_map.mp hm
      exact Nat.le_refl _
    · exact Nat.le_of_succ_le (ih (ix + 1) isF' int' e hm)

/-- The batch indices along the trace never decrease. -/
theorem drawLoop_pairwise :
    ∀ (scene : List PrimitiveBatch) (ix : Nat) (isFirst inter : Bool),
      (drawLoop ix isFirst inter scene).Pairwise
        (fun a b : Nat × DrawEvent => a.1 ≤ b.1) := by
  intro scene
  induction scene with
  | nil =>
    intro ix _ _
    simp [drawLoop]
  | cons b rest ih =>
    intro ix isFirst inter
    rcases hdb : drawBatch isFirst inter b with ⟨evs, isF', int'⟩
    simp only [drawLoop, hdb]
    rw [List.pairwise_append]
    refine ⟨?_, ih (ix + 1) isF' int', ?_⟩
    · rw [List.pairwise_map]
      exact List.Pairwise.imp (fun _ => Nat.le_refl ix)
        (List.pairwise_iff_forall_sublist.mpr (fun _ => trivial))
    · intro a ha b hb
      obtain ⟨x, _, rfl⟩ := List.mem_map.mp ha
      exact Nat.le_of_succ_le (drawLoop_tag_ge rest (ix + 1) isF' int' b hb)

/-- C1: `draw` walks the scene's batches in list order, and the framebuffer
draw calls it issues appear in the same relative order as the batches they
come from — batch indices along the trace, and along its framebuffer-draw
restriction, are nondecreasing. -/
theorem c1_paint_order_preserved (intermediateExists : Bool)
    (scene : List PrimitiveBatch) :
    (drawTrace intermediateExists scene).Pairwise
      (fun a b : Nat × DrawEvent => a.1 ≤ b.1) ∧
    ((drawTrace intermediateExists scene).filter
        (fun e => e.2.isFramebufferDraw)).Pairwise
      (fun a b : Nat × DrawEvent => a.1 ≤ b.1) := by
  have h := drawLoop_pairwise scene 0 true intermediateExists
  exact ⟨h, List.Pairwise.sublist (List.filter_sublist _) h⟩

/-- A non-empty path batch contributes exactly one destination-copy draw, an
instanced draw over its sprite list. -/
theorem drawBatch_paths_copy (first : PathData) (rest : List PathData)
    (isF inter : Bool) :
    (drawBatch isF inter (.paths (first :: rest))).1.filter DrawEvent.isPathCopyDraw =
      [DrawEvent.draw .framebuffer .paths 4 (pathSprites (first :: rest)).length] := by
  cases hv : pathVertexTotal (first :: rest) == 0 <;> cases isF <;>
    simp [drawBatch, hv, DrawEvent.isPathCopyDraw]

/-- The number of destination-copy draws in a trace. -/
def countPathCopyDraws (trace : List (Nat × DrawEvent)) : Nat :=
  (trace.filter (fun e => e.2.isPathCopyDraw)).length

theorem countPathCopyDraws_cons (ix : Nat) (isF inter : Bool) (b : PrimitiveBatch)
    (rest : List PrimitiveBatch) :
    countPathCopyDraws (drawLoop ix isF inter (b :: rest)) =
      ((drawBatch isF inter b).1.filter DrawEvent.isPathCopyDraw).length +
      countPathCopyDraws
        (drawLoop (ix + 1) (drawBatch isF inter b).2.1 (drawBatch isF inter b).2.2 rest) := by
  rcases hdb : drawBatch isF inter b with ⟨evs, isF', int'⟩
  simp only [countPathCopyDraws, drawLoop, hdb, List.filter_append, List.length_append]
  congr 1
  rw [List.filter_map, List.length_map]
  rfl

theorem countCopy_paths_one (first : PathData) (rest : List PathData) (isF inter : Bool) :
    ((drawBatch isF inter (.paths (first :: rest))).1.filter
      DrawEvent.isPathCopyDraw).length = 1 := by
  rw [drawBatch_paths_copy]
  rfl

theorem countCopy_quads_zero (n : Nat) (isF inter : Bool) :
    ((drawBatch isF inter (.quads n)).1.filter DrawEvent.isPathCopyDraw).length = 0 := by
  cases hn : n == 0 <;> cases isF <;> simp [drawBatch, hn, DrawEvent.isPathCopyDraw]

/-- C8: for a non-empty path batch, when the last path's paint order equals
the first's, the one copy draw call carries one instance per path, each
bounded by that path's own clipped bounds; otherwise the one copy draw call
carries a single instance bounded by the union of all the paths' clipped
bounds; and two path batches separated by a quad batch produce two separate
copy draw calls. -/
theorem c8_path_copy_batching (first : PathData) (rest : List PathData)
    (isF inter : Bool) :
    ((first :: rest).getLast?.map PathData.order = some first.order →
      pathSprites (first :: rest) = (first :: rest).map PathData.clippedBounds ∧
      (drawBatch isF inter (.paths (first :: rest))).1.filter DrawEvent.isPathCopyDraw =
        [DrawEvent.draw .framebuffer .paths 4 (first :: rest).length]) ∧
    (¬(first :: rest).getLast?.map PathData.order = some first.order →
      pathSprites (first :: rest) = [unionBoundsFold first.clippedBounds rest] ∧
      (drawBatch isF inter (.paths (first :: rest))).1.filter DrawEvent.isPathCopyDraw =
        [DrawEvent.draw .framebuffer .paths 4 1]) ∧
    (∀ (first₂ : PathData) (rest₂ : List PathData) (nQuads : Nat),
      first₂.order ≠ first.order →
      countPathCopyDraws (drawTrace inter
        [.paths (first :: rest), .quads nQuads, .paths (first₂ :: rest₂)]) = 2) := by
  refine ⟨?_, ?_, ?_⟩
  · intro hord
    have hs : pathSprites (first :: rest) = (first :: rest).map PathData.clippedBounds := by
      rw [pathSprites, if_pos hord]
    refine ⟨hs, ?_⟩
    rw [drawBatch_paths_copy, hs, List.length_map]
  · intro hord
    have hs : pathSprites (first :: rest) = [unionBoundsFold first.clippedBounds rest] := by
      rw [pathSprites, if_neg hord]
    refine ⟨hs, ?_⟩
    rw [drawBatch_paths_copy, hs]
    rfl
  · intro first₂ rest₂ nQuads _
    unfold drawTrace
    rw [countPathCopyDraws_cons, countCopy_paths_one]
    rw [countPathCopyDraws_cons, countCopy_quads_zero]
    rw [countPathCopyDraws_cons, countCopy_paths_one]
    rfl

/-- Witness for C8: two concrete paths of equal order in one batch, and a
batch of different order across a quad batch. -/
theorem c8_witness :
    (([⟨1, ⟨⟨0, 0⟩, ⟨10, 10⟩⟩, 3⟩, ⟨1, ⟨⟨20, 0⟩, ⟨10, 10⟩⟩, 3⟩] :
        List PathData).getLast?.map PathData.order =
        some (⟨1, ⟨⟨0, 0⟩, ⟨10, 10⟩⟩, 3⟩ : PathData).order →
      pathSprites [⟨1, ⟨⟨0, 0⟩, ⟨10, 10⟩⟩, 3⟩, ⟨1, ⟨⟨20, 0⟩, ⟨10, 10⟩⟩, 3⟩] =
        ([⟨1, ⟨⟨0, 0⟩, ⟨10, 10⟩⟩, 3⟩, ⟨1, ⟨⟨20, 0⟩, ⟨10, 10⟩⟩, 3⟩] :
          List PathData).map PathData.clippedBounds ∧
      (drawBatch true false
          (.paths [⟨1, ⟨⟨0, 0⟩, ⟨10, 10⟩⟩, 3⟩, ⟨1, ⟨⟨20, 0⟩, ⟨10, 10⟩⟩, 3⟩])).1.filter
          DrawEvent.isPathCopyDraw =
        [DrawEvent.draw .framebuffer .paths 4 2]) ∧
    (¬([⟨1, ⟨⟨0, 0⟩, ⟨10, 10⟩⟩, 3⟩, ⟨1, ⟨⟨20, 0⟩, ⟨10, 10⟩⟩, 3⟩] :
        List PathData).getLast?.map PathData.order =
        some (⟨1, ⟨⟨0, 0⟩, ⟨10, 10⟩⟩, 3⟩ : PathData).order →
      pathSprites [⟨1, ⟨⟨0, 0⟩, ⟨10, 10⟩⟩, 3⟩, ⟨1, ⟨⟨20, 0⟩, ⟨10, 10⟩⟩, 3⟩] =
        [unionBoundsFold (⟨1, ⟨⟨0, 0⟩, ⟨10, 10⟩⟩, 3⟩ : PathData).clippedBounds
          [⟨1, ⟨⟨20, 0⟩, ⟨10, 10⟩⟩, 3⟩]] ∧
      (drawBatch true false
          (.paths [⟨1, ⟨⟨0, 0⟩, ⟨10, 10⟩⟩, 3⟩, ⟨1, ⟨⟨20, 0⟩, ⟨10, 10⟩⟩, 3⟩])).1.filter
          DrawEvent.isPathCopyDraw =
        [DrawEvent.draw .framebuffer .paths 4 1]) ∧
    (∀ (first₂ : PathData) (rest₂ : List PathData) (nQuads : Nat),
      first₂.order ≠ (⟨1, ⟨⟨0, 0⟩, ⟨10, 10⟩⟩, 3⟩ : PathData).order →
      countPathCopyDraws (drawTrace false
        [.paths [⟨1, ⟨⟨0, 0⟩, ⟨10, 10⟩⟩, 3⟩, ⟨1, ⟨⟨20, 0⟩, ⟨10, 10⟩⟩, 3⟩],
          .quads nQuads, .paths (first₂ :: rest₂)]) = 2) :=
  c8_path_copy_batching ⟨1, ⟨⟨0, 0⟩, ⟨10, 10⟩⟩, 3⟩ [⟨1, ⟨⟨20, 0⟩, ⟨10, 10⟩⟩, 3⟩] true false

